import Mathlib

/-!
# Verification of the R1CS-NARK core of the `accumulation` repository

Shallow embedding of `src/bd_as/r1cs_nark/mod.rs`, `src/bd_as/r1cs_nark/data_structures.rs`
and `src/bd_as/mod.rs`.

Modelling conventions:
* The curve's scalar field is an arbitrary commutative ring `F` (com­mutativity and the
  ring laws are all the source relies on); concrete evaluations use `ZMod 11`.
* Group elements live in an arbitrary `F`-module `G`; the Pedersen commitment of
  `ark_poly_commit::trivial_pc` is a multi-scalar multiplication against a generator
  list plus an optional hiding term.
* Rust panics (out-of-bounds slice indexing, `assert_eq!` failure, `Option::unwrap`
  on `None`) are modelled by `Option`: a result of `none` means the Rust code panics.
* The cryptographic sponge is an external collaborator; it is modelled by a structure
  of abstract absorb/squeeze operations, and the Fiat-Shamir challenge is the exact
  absorption sequence of `compute_challenge` applied to those operations.
-/

set_option maxHeartbeats 1000000
set_option linter.unusedSectionVars false

namespace Nark

/-- Sparse R1CS constraint matrix (`ark_relations::r1cs::Matrix<F>`): one row per
constraint, each row an ordered list of (coefficient, column index) pairs over the
combined input‖witness index space. -/
abbrev Mat (F : Type) := List (List (F × Nat))

/-- `IndexInfo` from `data_structures.rs`: variable count, constraint count,
instance-variable count and the domain-separated matrices hash (a byte string,
modelled as a list of naturals). -/
structure IndexInfo where
  num_variables : Nat
  num_constraints : Nat
  num_instance_variables : Nat
  matrices_hash : List Nat
deriving DecidableEq

/-- Pedersen committer key (`ark_poly_commit::trivial_pc::CommitterKey`): a list of
group generators plus a hiding generator.  External collaborator. -/
structure CommitterKey (G : Type) where
  generators : List G
  hidingGen : G
deriving DecidableEq

/-- `IndexProverKey` from `data_structures.rs`. -/
structure IndexProverKey (F G : Type) where
  index_info : IndexInfo
  a : Mat F
  b : Mat F
  c : Mat F
  ck : CommitterKey G
deriving DecidableEq

/-- `IndexVerifierKey` is a type alias for `IndexProverKey` in the source. -/
abbrev IndexVerifierKey (F G : Type) := IndexProverKey F G

/-- `FirstRoundMessageRandomness` from `data_structures.rs`. -/
structure FirstRoundMessageRandomness (G : Type) where
  comm_r_a : G
  comm_r_b : G
  comm_r_c : G
  comm_1 : G
  comm_2 : G
deriving DecidableEq

/-- `FirstRoundMessage` from `data_structures.rs`. -/
structure FirstRoundMessage (G : Type) where
  comm_a : G
  comm_b : G
  comm_c : G
  randomness : Option (FirstRoundMessageRandomness G)
deriving DecidableEq

/-- `SecondRoundMessageRandomness` from `data_structures.rs`. -/
structure SecondRoundMessageRandomness (F : Type) where
  sigma_a : F
  sigma_b : F
  sigma_c : F
  sigma_o : F
deriving DecidableEq

/-- `SecondRoundMessage` from `data_structures.rs`. -/
structure SecondRoundMessage (F : Type) where
  blinded_witness : List F
  randomness : Option (SecondRoundMessageRandomness F)
deriving DecidableEq

/-- `Proof` from `data_structures.rs`. -/
structure Proof (F G : Type) where
  first_msg : FirstRoundMessage G
  second_msg : SecondRoundMessage F
deriving DecidableEq

/-- The error type of `R1CSResult` (`ark_relations::r1cs::SynthesisError`).  Note that
it has no dimension-mismatch variant: the listed constructors model the variants the
NARK can propagate from constraint generation. -/
inductive SynthError where
  | assignmentMissing
  | unsatisfiable
  | malformedCS
deriving DecidableEq

/-- The data `prove` extracts from the synthesized constraint system (lines 138-145 of
mod.rs): the instance assignment, the witness assignment and the constraint count. -/
structure ProveAssignment (F : Type) where
  input : List F
  witness : List F
  numConstraints : Nat
deriving DecidableEq

/-- A deterministic, well-formed `ConstraintSynthesizer`: it yields the same matrices
in `Setup` mode (used by `index`) and the same assignments in `Prove` mode (used by
`prove`), with one matrix row per constraint. -/
structure R1CSInstance (F : Type) where
  a : Mat F
  b : Mat F
  c : Mat F
  input : List F
  witness : List F
deriving DecidableEq

/-- The `Prove`-mode synthesis output of a well-formed synthesizer: its assignments,
with the constraint count equal to the common row count of its matrices. -/
def R1CSInstance.assignment {F : Type} (inst : R1CSInstance F) : ProveAssignment F :=
  ⟨inst.input, inst.witness, inst.a.length⟩

section Ops

variable {F : Type} [CommRing F] [DecidableEq F]
variable {G : Type} [AddCommGroup G] [Module F G] [DecidableEq G]

/-- The indexing `z[i]` of mod.rs lines 417-421: read from `input` when `i` is below
`input.len()`, else from `witness` at `i - input.len()`.  `none` models the Rust
panic on an out-of-range witness index. -/
def lookupZ (input witness : List F) (i : Nat) : Option F :=
  if i < input.length then input.get? i else witness.get? (i - input.length)

/-- The accumulator loop of `inner_prod` (mod.rs lines 415-425), including the
`coeff.is_one()` fast path. -/
def innerProdAux (input witness : List F) : List (F × Nat) → F → Option F
  | [], acc => some acc
  | ci :: rest, acc =>
    (lookupZ input witness ci.2).bind fun tmp =>
      innerProdAux input witness rest (acc + (if ci.1 = 1 then tmp else tmp * ci.1))

/-- `inner_prod` from mod.rs lines 414-426.  `none` models the panic raised by
out-of-bounds slice indexing. -/
def innerProd (row : List (F × Nat)) (input witness : List F) : Option F :=
  innerProdAux input witness row 0

/-- `matrix_vec_mul` from mod.rs lines 408-412: map `inner_prod` over the rows. -/
def matrixVecMul : Mat F → List F → List F → Option (List F)
  | [], _, _ => some []
  | row :: rest, input, witness =>
    match innerProd row input witness, matrixVecMul rest input witness with
    | some x, some xs => some (x :: xs)
    | _, _ => none

/-- Specification-side inner product, following the spec's words in §4.3 step 2:
"each output coordinate is the inner product of a matrix row against the concatenated
(input, witness) vector" — no `is_one` fast path, total (out-of-range reads as `0`). -/
def specInnerProd (row : List (F × Nat)) (z : List F) : F :=
  (row.map (fun ci => ci.1 * z.getD ci.2 0)).sum

/-- Specification-side sparse matrix-vector product. -/
def specMVM (m : Mat F) (z : List F) : List F :=
  m.map (fun row => specInnerProd row z)

/-- All column indices of a row are below `n`. -/
def rowBounded (row : List (F × Nat)) (n : Nat) : Bool :=
  row.all (fun ci => ci.2 < n)

/-- All column indices of a matrix are below `n`. -/
def matBounded (m : Mat F) (n : Nat) : Bool :=
  m.all (fun row => rowBounded row n)

end Ops

section Commit

variable {F : Type} [CommRing F] [DecidableEq F]
variable {G : Type} [AddCommGroup G] [Module F G] [DecidableEq G]

/-- Multi-scalar multiplication over a generator list: the sum of each scalar times
its generator, pairing up to the shorter of the two lists. -/
def msm (gens : List G) (v : List F) : G :=
  (List.zipWith (fun x g => x • g) v gens).sum

/-- `PedersenCommitment::commit` of `ark_poly_commit::trivial_pc` (external
collaborator): an MSM of the vector against the generators, plus the optional
blinder times the hiding generator. -/
def pedersenCommit (ck : CommitterKey G) (v : List F) (blinder : Option F) : G :=
  msm ck.generators v +
    (match blinder with
     | some r => r • ck.hidingGen
     | none => 0)

end Commit

section Sponge

variable {F : Type} {G : Type}

/-- Abstract cryptographic sponge and byte-encoding collaborators (`ark_sponge`,
`ark_ff` canonical little-endian encodings): a state type, an initial (`S::new()`)
state, byte absorption, the canonical byte encodings of field and group elements,
and the truncated squeeze of one field element. -/
structure SpongeOps (F G : Type) where
  State : Type
  initState : State
  absorbBytes : State → List Nat → State
  fieldBytes : F → List Nat
  groupBytes : G → List Nat
  squeezeTrunc : State → F

/-- Absorption of the optional first-round randomness block, following the derived
`Absorbable` instance for `Option`: a presence-marker byte followed, when present, by
the block's five commitments in field-declaration order. -/
def absorbFirstRoundRandomness (S : SpongeOps F G) (st : S.State) :
    Option (FirstRoundMessageRandomness G) → S.State
  | none => S.absorbBytes st [0]
  | some r =>
    let st1 := S.absorbBytes st [1]
    let st2 := S.absorbBytes st1 (S.groupBytes r.comm_r_a)
    let st3 := S.absorbBytes st2 (S.groupBytes r.comm_r_b)
    let st4 := S.absorbBytes st3 (S.groupBytes r.comm_r_c)
    let st5 := S.absorbBytes st4 (S.groupBytes r.comm_1)
    S.absorbBytes st5 (S.groupBytes r.comm_2)

/-- Absorption of a `FirstRoundMessage` (its `Absorbable` instance in
`data_structures.rs`): the three commitments then the optional randomness block,
in field-declaration order. -/
def absorbFirstRoundMessage (S : SpongeOps F G) (st : S.State)
    (msg : FirstRoundMessage G) : S.State :=
  absorbFirstRoundRandomness S
    (S.absorbBytes
      (S.absorbBytes
        (S.absorbBytes st (S.groupBytes msg.comm_a))
        (S.groupBytes msg.comm_b))
      (S.groupBytes msg.comm_c))
    msg.randomness

/-- `R1CSNark::compute_challenge` from mod.rs lines 45-68: absorb the matrices hash,
then the little-endian byte concatenation of the public input, then the first-round
message, and squeeze one truncated field element. -/
def computeChallenge (S : SpongeOps F G) (matrices_hash : List Nat) (input : List F)
    (msg : FirstRoundMessage G) (sponge : S.State) : F :=
  let st1 := S.absorbBytes sponge matrices_hash
  let input_bytes := (input.map S.fieldBytes).flatten
  let st2 := S.absorbBytes st1 input_bytes
  S.squeezeTrunc (absorbFirstRoundMessage S st2 msg)

end Sponge

section Prover

variable {F : Type} [CommRing F] [DecidableEq F]
variable {G : Type} [AddCommGroup G] [Module F G] [DecidableEq G]

/-- The randomizer vector `r` drawn by the zero-knowledge prover: `nw` fresh field
elements from the randomness source `ρ` (draw `k` is `ρ k`). -/
def randomizerOf (ρ : Nat → F) (nw : Nat) : List F := (List.range nw).map ρ

/-- The blinder for `comm_a`: the prover's draw number `nw`. -/
def aBlinderOf (ρ : Nat → F) (nw : Nat) : F := ρ nw

/-- The blinder for `comm_b`. -/
def bBlinderOf (ρ : Nat → F) (nw : Nat) : F := ρ (nw + 1)

/-- The blinder for `comm_c`. -/
def cBlinderOf (ρ : Nat → F) (nw : Nat) : F := ρ (nw + 2)

/-- The blinder for `comm_r_a`. -/
def rABlinderOf (ρ : Nat → F) (nw : Nat) : F := ρ (nw + 3)

/-- The blinder for `comm_r_b`. -/
def rBBlinderOf (ρ : Nat → F) (nw : Nat) : F := ρ (nw + 4)

/-- The blinder for `comm_r_c`. -/
def rCBlinderOf (ρ : Nat → F) (nw : Nat) : F := ρ (nw + 5)

/-- The blinder for the cross-term commitment `comm_1`. -/
def blinder1Of (ρ : Nat → F) (nw : Nat) : F := ρ (nw + 6)

/-- The blinder for the `r_A ∘ r_B` commitment `comm_2`. -/
def blinder2Of (ρ : Nat → F) (nw : Nat) : F := ρ (nw + 7)

/-- The in-place blinding loop `blinded_witness.iter_mut().zip(r.unwrap())` of mod.rs
lines 269-271: elementwise `s + γ·r` on the zipped prefix; elements of the witness
beyond `r.length` are left unchanged by `zip`. -/
def blindWith (w : List F) (γ : F) (r : List F) : List F :=
  List.zipWith (fun s ri => s + γ * ri) w r ++ w.drop r.length

/-- `R1CSNark::index` from mod.rs lines 71-117 on a well-formed synthesizer: builds
the index info from the synthesized counts and matrices, obtains a committer key
sized to the constraint count from the external Pedersen setup, and returns the
prover key and its clone as verifier key.  `hashABC` is the external
`hash_matrices` collaborator (Blake2b over the domain-separated canonical
serialization). -/
def index (hashABC : Mat F → Mat F → Mat F → List Nat)
    (pedersenSetup : Nat → CommitterKey G) (inst : R1CSInstance F) :
    IndexProverKey F G × IndexVerifierKey F G :=
  let index_info : IndexInfo :=
    { num_variables := inst.input.length + inst.witness.length
      num_constraints := inst.a.length
      num_instance_variables := inst.input.length
      matrices_hash := hashABC inst.a inst.b inst.c }
  let ipk : IndexProverKey F G := ⟨index_info, inst.a, inst.b, inst.c, pedersenSetup inst.a.length⟩
  (ipk, ipk)

/-- The zero-knowledge path of `R1CSNark::prove` (mod.rs lines 154-302 with
`make_zk = true` and the randomness source present), after the dimension
assertions have passed.  `none` models a panic inside `matrix_vec_mul`. -/
def proveZK (S : SpongeOps F G) (ipk : IndexProverKey F G) (input witness : List F)
    (ρ : Nat → F) (sponge : Option S.State) : Option (Proof F G) :=
  let nw := witness.length
  let r := randomizerOf ρ nw
  match matrixVecMul ipk.a input witness, matrixVecMul ipk.b input witness,
        matrixVecMul ipk.c input witness with
  | some z_a, some z_b, some z_c =>
    let zeros : List F := List.replicate input.length 0
    match matrixVecMul ipk.a zeros r, matrixVecMul ipk.b zeros r,
          matrixVecMul ipk.c zeros r with
    | some r_a, some r_b, some r_c =>
      let comm_a := pedersenCommit ipk.ck z_a (some (aBlinderOf ρ nw))
      let comm_b := pedersenCommit ipk.ck z_b (some (bBlinderOf ρ nw))
      let comm_c := pedersenCommit ipk.ck z_c (some (cBlinderOf ρ nw))
      let comm_r_a := pedersenCommit ipk.ck r_a (some (rABlinderOf ρ nw))
      let comm_r_b := pedersenCommit ipk.ck r_b (some (rBBlinderOf ρ nw))
      let comm_r_c := pedersenCommit ipk.ck r_c (some (rCBlinderOf ρ nw))
      let cross := List.zipWith (· + ·)
        (List.zipWith (· * ·) z_a r_b) (List.zipWith (· * ·) z_b r_a)
      let comm_1 := pedersenCommit ipk.ck cross (some (blinder1Of ρ nw))
      let rab := List.zipWith (fun ra rb => rb * ra) r_a r_b
      let comm_2 := pedersenCommit ipk.ck rab (some (blinder2Of ρ nw))
      let first_msg : FirstRoundMessage G :=
        ⟨comm_a, comm_b, comm_c, some ⟨comm_r_a, comm_r_b, comm_r_c, comm_1, comm_2⟩⟩
      let gamma := computeChallenge S ipk.index_info.matrices_hash input first_msg
        (sponge.getD S.initState)
      let blinded_witness := blindWith witness gamma r
      let sigma_a := aBlinderOf ρ nw + gamma * rABlinderOf ρ nw
      let sigma_b := bBlinderOf ρ nw + gamma * rBBlinderOf ρ nw
      let sigma_c := cBlinderOf ρ nw + gamma * rCBlinderOf ρ nw
      let sigma_o := cBlinderOf ρ nw + gamma * blinder1Of ρ nw
        + gamma ^ 2 * blinder2Of ρ nw
      some ⟨first_msg, ⟨blinded_witness, some ⟨sigma_a, sigma_b, sigma_c, sigma_o⟩⟩⟩
    | _, _, _ => none
  | _, _, _ => none

/-- The non-zero-knowledge path of `R1CSNark::prove` (`make_zk = false`): no
randomizer, unblinded commitments, the challenge still derived, the witness passed
through unchanged and no second-round randomness block. -/
def proveNZK (S : SpongeOps F G) (ipk : IndexProverKey F G) (input witness : List F)
    (sponge : Option S.State) : Option (Proof F G) :=
  match matrixVecMul ipk.a input witness, matrixVecMul ipk.b input witness,
        matrixVecMul ipk.c input witness with
  | some z_a, some z_b, some z_c =>
    let comm_a := pedersenCommit ipk.ck z_a none
    let comm_b := pedersenCommit ipk.ck z_b none
    let comm_c := pedersenCommit ipk.ck z_c none
    let first_msg : FirstRoundMessage G := ⟨comm_a, comm_b, comm_c, none⟩
    let _gamma := computeChallenge S ipk.index_info.matrices_hash input first_msg
      (sponge.getD S.initState)
    some ⟨first_msg, ⟨witness, none⟩⟩
  | _, _, _ => none

/-- The body of `R1CSNark::prove` after successful synthesis: the `assert_eq!`
dimension checks of mod.rs lines 151-152 (`none` models the assertion panic), the
`rng.unwrap()` of line 157 when `make_zk` is set (`none` when no randomness source
is present), and the dispatch into the two proving paths. -/
def proveChecked (S : SpongeOps F G) (ipk : IndexProverKey F G)
    (asg : ProveAssignment F) (makeZk : Bool)
    (sponge : Option S.State) (rng : Option (Nat → F)) :
    Option (Except SynthError (Proof F G)) :=
  if ipk.index_info.num_variables ≠ asg.input.length + asg.witness.length then none
  else if ipk.index_info.num_constraints ≠ asg.numConstraints then none
  else
    match makeZk, rng with
    | false, _ => (proveNZK S ipk asg.input asg.witness sponge).map Except.ok
    | true, none => none
    | true, some ρ => (proveZK S ipk asg.input asg.witness ρ sponge).map Except.ok

/-- `R1CSNark::prove` from mod.rs lines 119-303.  The synthesizer's output is the
`r1cs` argument (an `Err` propagates as a returned error, the `?` of line 134);
`none` models a panic. -/
def prove (S : SpongeOps F G) (ipk : IndexProverKey F G)
    (r1cs : Except SynthError (ProveAssignment F)) (makeZk : Bool)
    (sponge : Option S.State) (rng : Option (Nat → F)) :
    Option (Except SynthError (Proof F G)) :=
  match r1cs with
  | .error e => some (.error e)
  | .ok asg => proveChecked S ipk asg makeZk sponge rng

/-- The verifier's fourth equality check (mod.rs lines 364-381): commit the Hadamard
product of the A-product and B-product vectors with the opening scalar `sigma_o`, and
compare to `comm_c + γ·comm_1 + γ²·comm_2`, the `γ` terms dropped when the
randomness block is absent. -/
def hadamardCheck (ivk : IndexVerifierKey F G) (input : List F) (proof : Proof F G)
    (gamma : F) : Option Bool :=
  match matrixVecMul ivk.a input proof.second_msg.blinded_witness,
        matrixVecMul ivk.b input proof.second_msg.blinded_witness with
  | some aW, some bW =>
    let had_prod := List.zipWith (· * ·) aW bW
    let reconstructed := pedersenCommit ivk.ck had_prod
      (proof.second_msg.randomness.map (fun r => r.sigma_o))
    let had_prod_comm :=
      match proof.first_msg.randomness with
      | some fr => proof.first_msg.comm_c + gamma • fr.comm_1 + gamma ^ 2 • fr.comm_2
      | none => proof.first_msg.comm_c
    some (decide (had_prod_comm = reconstructed))
  | _, _ => none

/-- The body of `R1CSNark::verify` after the flag-consistency early return
(mod.rs lines 316-384): re-derive the challenge, compute the three matrix products
of the blinded witness, reconstruct the three commitments, and run the Hadamard
check.  `none` models the panic raised by an out-of-bounds access in
`matrix_vec_mul` (reachable when the proof's blinded witness is shorter than the
indexed relation expects). -/
def verifyChecks (S : SpongeOps F G) (ivk : IndexVerifierKey F G) (input : List F)
    (proof : Proof F G) (sponge : Option S.State) : Option Bool :=
  let gamma := computeChallenge S ivk.index_info.matrices_hash input proof.first_msg
    (sponge.getD S.initState)
  match matrixVecMul ivk.a input proof.second_msg.blinded_witness,
        matrixVecMul ivk.b input proof.second_msg.blinded_witness,
        matrixVecMul ivk.c input proof.second_msg.blinded_witness with
  | some aW, some bW, some cW =>
      let comm_a :=
        match proof.first_msg.randomness with
        | some fr => proof.first_msg.comm_a + gamma • fr.comm_r_a
        | none => proof.first_msg.comm_a
      let comm_b :=
        match proof.first_msg.randomness with
        | some fr => proof.first_msg.comm_b + gamma • fr.comm_r_b
        | none => proof.first_msg.comm_b
      let comm_c :=
        match proof.first_msg.randomness with
        | some fr => proof.first_msg.comm_c + gamma • fr.comm_r_c
        | none => proof.first_msg.comm_c
      let reconstructed_comm_a := pedersenCommit ivk.ck aW
        (proof.second_msg.randomness.map (fun r => r.sigma_a))
      let reconstructed_comm_b := pedersenCommit ivk.ck bW
        (proof.second_msg.randomness.map (fun r => r.sigma_b))
      let reconstructed_comm_c := pedersenCommit ivk.ck cW
        (proof.second_msg.randomness.map (fun r => r.sigma_c))
      let a_equal := decide (comm_a = reconstructed_comm_a)
      let b_equal := decide (comm_b = reconstructed_comm_b)
      let c_equal := decide (comm_c = reconstructed_comm_c)
      match hadamardCheck ivk input proof gamma with
      | some had_prod_equal => some (a_equal && b_equal && c_equal && had_prod_equal)
      | none => none
    | _, _, _ => none

/-- `R1CSNark::verify` from mod.rs lines 305-385: reject immediately when the two
randomness-block presences disagree (lines 312-314), otherwise run the four
equality checks.  `none` models a panic. -/
def verify (S : SpongeOps F G) (ivk : IndexVerifierKey F G) (input : List F)
    (proof : Proof F G) (sponge : Option S.State) : Option Bool :=
  if proof.first_msg.randomness.isSome ≠ proof.second_msg.randomness.isSome then
    some false
  else verifyChecks S ivk input proof sponge

/-- The A-product vector `z_A = A·(input ∥ witness)` of the honest prover, written
with the specification-side matrix-vector product. -/
def zA (ipk : IndexProverKey F G) (input witness : List F) : List F :=
  specMVM ipk.a (input ++ witness)

/-- The honest `z_B`. -/
def zB (ipk : IndexProverKey F G) (input witness : List F) : List F :=
  specMVM ipk.b (input ++ witness)

/-- The honest `z_C`. -/
def zC (ipk : IndexProverKey F G) (input witness : List F) : List F :=
  specMVM ipk.c (input ++ witness)

/-- The honest `r_A = A·(0 ∥ r)`: zero instance part, randomizer as witness part. -/
def rAz (ipk : IndexProverKey F G) (input witness : List F) (ρ : Nat → F) : List F :=
  specMVM ipk.a (List.replicate input.length 0 ++ randomizerOf ρ witness.length)

/-- The honest `r_B`. -/
def rBz (ipk : IndexProverKey F G) (input witness : List F) (ρ : Nat → F) : List F :=
  specMVM ipk.b (List.replicate input.length 0 ++ randomizerOf ρ witness.length)

/-- The honest `r_C`. -/
def rCz (ipk : IndexProverKey F G) (input witness : List F) (ρ : Nat → F) : List F :=
  specMVM ipk.c (List.replicate input.length 0 ++ randomizerOf ρ witness.length)

/-- The honest cross term `z_A ∘ r_B + z_B ∘ r_A`. -/
def crossZK (ipk : IndexProverKey F G) (input witness : List F) (ρ : Nat → F) : List F :=
  List.zipWith (· + ·)
    (List.zipWith (· * ·) (zA ipk input witness) (rBz ipk input witness ρ))
    (List.zipWith (· * ·) (zB ipk input witness) (rAz ipk input witness ρ))

/-- The honest `r_A ∘ r_B` (multiplied in the source's `r_b * r_a` order). -/
def rabZK (ipk : IndexProverKey F G) (input witness : List F) (ρ : Nat → F) : List F :=
  List.zipWith (fun x y => y * x) (rAz ipk input witness ρ) (rBz ipk input witness ρ)

/-- The honest zero-knowledge first-round message. -/
def honestFirstMsgZK (ipk : IndexProverKey F G) (input witness : List F) (ρ : Nat → F) :
    FirstRoundMessage G :=
  ⟨pedersenCommit ipk.ck (zA ipk input witness) (some (aBlinderOf ρ witness.length)),
   pedersenCommit ipk.ck (zB ipk input witness) (some (bBlinderOf ρ witness.length)),
   pedersenCommit ipk.ck (zC ipk input witness) (some (cBlinderOf ρ witness.length)),
   some ⟨pedersenCommit ipk.ck (rAz ipk input witness ρ) (some (rABlinderOf ρ witness.length)),
         pedersenCommit ipk.ck (rBz ipk input witness ρ) (some (rBBlinderOf ρ witness.length)),
         pedersenCommit ipk.ck (rCz ipk input witness ρ) (some (rCBlinderOf ρ witness.length)),
         pedersenCommit ipk.ck (crossZK ipk input witness ρ) (some (blinder1Of ρ witness.length)),
         pedersenCommit ipk.ck (rabZK ipk input witness ρ) (some (blinder2Of ρ witness.length))⟩⟩

/-- The honest zero-knowledge Fiat-Shamir challenge. -/
def honestGammaZK (S : SpongeOps F G) (ipk : IndexProverKey F G) (input witness : List F)
    (ρ : Nat → F) (sponge : Option S.State) : F :=
  computeChallenge S ipk.index_info.matrices_hash input
    (honestFirstMsgZK ipk input witness ρ) (sponge.getD S.initState)

/-- The proof produced by the honest zero-knowledge prover, with the Fiat-Shamir
challenge abstracted as a parameter `gamma`. -/
def honestProofZKWith (ipk : IndexProverKey F G) (input witness : List F)
    (ρ : Nat → F) (gamma : F) : Proof F G :=
  let nw := witness.length
  ⟨honestFirstMsgZK ipk input witness ρ,
   ⟨blindWith witness gamma (randomizerOf ρ nw),
    some ⟨aBlinderOf ρ nw + gamma * rABlinderOf ρ nw,
          bBlinderOf ρ nw + gamma * rBBlinderOf ρ nw,
          cBlinderOf ρ nw + gamma * rCBlinderOf ρ nw,
          cBlinderOf ρ nw + gamma * blinder1Of ρ nw + gamma ^ 2 * blinder2Of ρ nw⟩⟩⟩

/-- The proof produced by the honest zero-knowledge prover. -/
def honestProofZK (S : SpongeOps F G) (ipk : IndexProverKey F G) (input witness : List F)
    (ρ : Nat → F) (sponge : Option S.State) : Proof F G :=
  honestProofZKWith ipk input witness ρ (honestGammaZK S ipk input witness ρ sponge)

/-- The honest non-zero-knowledge first-round message. -/
def honestFirstMsgNZK (ipk : IndexProverKey F G) (input witness : List F) :
    FirstRoundMessage G :=
  ⟨pedersenCommit ipk.ck (zA ipk input witness) none,
   pedersenCommit ipk.ck (zB ipk input witness) none,
   pedersenCommit ipk.ck (zC ipk input witness) none,
   none⟩

/-- The proof produced by the honest non-zero-knowledge prover. -/
def honestProofNZK (ipk : IndexProverKey F G) (input witness : List F) : Proof F G :=
  ⟨honestFirstMsgNZK ipk input witness, ⟨witness, none⟩⟩

end Prover

/-- The accumulation scheme's error kinds from §7 of the spec (`BoxedError` wraps
them in the source; the error module is not part of the three source files). -/
inductive ASError where
  | boundExceeded
  | relationMismatch
deriving DecidableEq

/-- Modelled from the spec: `BDASForR1CSNark::prove` in `src/bd_as/mod.rs` (lines
54-65) is an empty, unimplemented stub, so the accumulation scheme's folding body is
missing from the source.  Following §4.5 and §7 of the spec, `prove` first checks
the number of supplied input instances against the depth bound fixed at indexing
time and fails with `BoundExceededError` before any cryptographic work; the
unspecified folding computation is abstracted as `fold`, which returns its result
together with the number of commitment computations it performed. -/
def bdasProve {α : Type} (bound : Nat) (inputs : List α)
    (fold : List α → Except ASError Unit × Nat) : Except ASError Unit × Nat :=
  if bound < inputs.length then (.error .boundExceeded, 0) else fold inputs

/-- Concrete sponge collaborator over `ZMod 11` for executable checks: the state is
the list of absorbed bytes, and the squeeze is the byte sum cast into the field. -/
def testSponge : SpongeOps (ZMod 11) (ZMod 11) where
  State := List Nat
  initState := []
  absorbBytes := fun st bs => st ++ bs
  fieldBytes := fun x => [x.val]
  groupBytes := fun g => [g.val]
  squeezeTrunc := fun st => (st.sum : ZMod 11)

/-- Concrete Pedersen setup collaborator sized to the requested vector length. -/
def testSetup (n : Nat) : CommitterKey (ZMod 11) := ⟨List.replicate n 2, 3⟩

/-- Concrete stand-in for the external Blake2b matrices hash. -/
def testHash (_a _b _c : Mat (ZMod 11)) : List Nat := [7]

/-- A satisfiable R1CS instance over `ZMod 11`: one constraint `w · w = 3·one` with
public input `[1]` and witness `[5]` (`5² = 25 = 3 mod 11`). -/
def testInst : R1CSInstance (ZMod 11) where
  a := [[(1, 1)]]
  b := [[(1, 1)]]
  c := [[(3, 0)]]
  input := [1]
  witness := [5]

/-- The key pair indexed from `testInst` (prover key and verifier key coincide). -/
def testVK : IndexVerifierKey (ZMod 11) (ZMod 11) := (index testHash testSetup testInst).1

/-- A first-round message with no randomness block. -/
def emptyFirstMsg : FirstRoundMessage (ZMod 11) := ⟨0, 0, 0, none⟩

/-- An adversarial proof whose blinded witness is empty although the indexed
relation references witness column 1. -/
def shortProof : Proof (ZMod 11) (ZMod 11) := ⟨emptyFirstMsg, ⟨[], none⟩⟩

/-- A proof whose first-round message carries a randomness block but whose
second-round message does not. -/
def mismatchProof : Proof (ZMod 11) (ZMod 11) :=
  ⟨⟨0, 0, 0, some ⟨0, 0, 0, 0, 0⟩⟩, ⟨[], none⟩⟩

section MVMLemmas

variable {F : Type} [CommRing F] [DecidableEq F]

omit [DecidableEq F] in
lemma lookupZ_eq (input witness : List F) (i : Nat)
    (h : i < input.length + witness.length) :
    lookupZ input witness i = some ((input ++ witness).getD i 0) := by
  unfold lookupZ
  by_cases hi : i < input.length
  · rw [if_pos hi, List.get?_eq_getElem?, List.getD_eq_getElem?_getD,
      List.getElem?_append_left hi, List.getElem?_eq_getElem hi]
    simp
  · have hle : input.length ≤ i := Nat.le_of_not_lt hi
    have hw : i - input.length < witness.length := by omega
    rw [if_neg hi, List.get?_eq_getElem?, List.getD_eq_getElem?_getD,
      List.getElem?_append_right hle, List.getElem?_eq_getElem hw]
    simp

lemma innerProdAux_eq (input witness : List F) (row : List (F × Nat))
    (hb : rowBounded row (input.length + witness.length) = true) (acc : F) :
    innerProdAux input witness row acc
      = some (acc + specInnerProd row (input ++ witness)) := by
  induction row generalizing acc with
  | nil => simp [innerProdAux, specInnerProd]
  | cons ci rest ih =>
    rw [rowBounded, List.all_cons] at hb
    have hb1 : ci.2 < input.length + witness.length := by
      have := (Bool.and_eq_true _ _).mp hb |>.1
      exact of_decide_eq_true this
    have hb2 : rowBounded rest (input.length + witness.length) = true :=
      (Bool.and_eq_true _ _).mp hb |>.2
    rw [innerProdAux, lookupZ_eq input witness ci.2 hb1, Option.some_bind]
    rw [ih hb2]
    congr 1
    simp only [specInnerProd, List.map_cons, List.sum_cons]
    by_cases h1 : ci.1 = 1
    · rw [if_pos h1, h1]; ring
    · rw [if_neg h1]; ring

lemma innerProd_eq (row : List (F × Nat)) (input witness : List F)
    (hb : rowBounded row (input.length + witness.length) = true) :
    innerProd row input witness = some (specInnerProd row (input ++ witness)) := by
  rw [innerProd, innerProdAux_eq input witness row hb 0, zero_add]

lemma matrixVecMul_eq (m : Mat F) (input witness : List F)
    (hb : matBounded m (input.length + witness.length) = true) :
    matrixVecMul m input witness = some (specMVM m (input ++ witness)) := by
  induction m with
  | nil => simp [matrixVecMul, specMVM]
  | cons row rest ih =>
    rw [matBounded, List.all_cons] at hb
    have hb1 : rowBounded row (input.length + witness.length) = true :=
      (Bool.and_eq_true _ _).mp hb |>.1
    have hb2 : matBounded rest (input.length + witness.length) = true :=
      (Bool.and_eq_true _ _).mp hb |>.2
    rw [matrixVecMul, innerProd_eq row input witness hb1, ih hb2]
    rfl

omit [DecidableEq F] in
lemma specMVM_length (m : Mat F) (z : List F) : (specMVM m z).length = m.length := by
  simp [specMVM]

end MVMLemmas

section CommitLemmas

variable {F : Type} [CommRing F]
variable {G : Type} [AddCommGroup G] [Module F G]

lemma msm_nil_left (v : List F) : msm ([] : List G) v = 0 := by
  simp [msm]

lemma msm_nil_right (gens : List G) : msm gens ([] : List F) = 0 := by
  simp [msm]

lemma msm_cons (g : G) (gs : List G) (x : F) (xs : List F) :
    msm (g :: gs) (x :: xs) = x • g + msm gs xs := by
  simp [msm]

lemma msm_zipWith_add (gens : List G) (u v : List F) (h : u.length = v.length) :
    msm gens (List.zipWith (· + ·) u v) = msm gens u + msm gens v := by
  induction u generalizing v gens with
  | nil =>
    cases v with
    | nil => simp [msm_nil_right]
    | cons y ys => simp at h
  | cons x xs ih =>
    cases v with
    | nil => simp at h
    | cons y ys =>
      cases gens with
      | nil => simp [msm_nil_left]
      | cons g gs =>
        rw [List.zipWith_cons_cons, msm_cons, msm_cons, msm_cons,
          ih gs ys (by simpa using h), add_smul]
        abel

lemma msm_map_smul (gens : List G) (γ : F) (v : List F) :
    msm gens (v.map (fun x => γ * x)) = γ • msm gens v := by
  induction v generalizing gens with
  | nil => simp [msm_nil_right]
  | cons x xs ih =>
    cases gens with
    | nil => simp [msm_nil_left]
    | cons g gs => rw [List.map_cons, msm_cons, msm_cons, ih, mul_smul, smul_add]

lemma msm_affine (gens : List G) (γ : F) (u v : List F) (h : u.length = v.length) :
    msm gens (List.zipWith (fun x y => x + γ * y) u v) = msm gens u + γ • msm gens v := by
  have hz : List.zipWith (fun x y => x + γ * y) u v
      = List.zipWith (· + ·) u (v.map (fun y => γ * y)) := by
    rw [List.zipWith_map_right]
  rw [hz, msm_zipWith_add gens u _ (by simpa using h), msm_map_smul]

lemma commit_affine (ck : CommitterKey G) (γ : F) (u v : List F) (s t : F)
    (h : u.length = v.length) :
    pedersenCommit ck (List.zipWith (fun x y => x + γ * y) u v) (some (s + γ * t))
      = pedersenCommit ck u (some s) + γ • pedersenCommit ck v (some t) := by
  simp only [pedersenCommit]
  rw [msm_affine ck.generators γ u v h, add_smul, mul_smul, smul_add]
  abel

lemma commit_three (ck : CommitterKey G) (γ : F) (p q r : List F) (s t u : F)
    (hq : q.length = p.length) (hr : r.length = p.length) :
    pedersenCommit ck
        (List.zipWith (· + ·)
          (List.zipWith (· + ·) p (q.map (fun x => γ * x)))
          (r.map (fun x => γ ^ 2 * x)))
        (some (s + γ * t + γ ^ 2 * u))
      = pedersenCommit ck p (some s) + γ • pedersenCommit ck q (some t)
          + γ ^ 2 • pedersenCommit ck r (some u) := by
  simp only [pedersenCommit]
  rw [msm_zipWith_add ck.generators _ _
      (by simp [List.length_zipWith, hq, hr]),
    msm_zipWith_add ck.generators p _ (by simp [hq]),
    msm_map_smul, msm_map_smul, add_smul, add_smul, mul_smul, mul_smul, smul_add, smul_add]
  abel

end CommitLemmas

section BlindLemmas

variable {F : Type} [CommRing F] [DecidableEq F]

lemma randomizerOf_length (ρ : Nat → F) (nw : Nat) :
    (randomizerOf ρ nw).length = nw := by
  simp [randomizerOf]

lemma blindWith_eq (w : List F) (γ : F) (r : List F) (h : r.length = w.length) :
    blindWith w γ r = List.zipWith (fun x y => x + γ * y) w r := by
  rw [blindWith, h, List.drop_length, List.append_nil]

lemma blindWith_length (w : List F) (γ : F) (r : List F) (h : r.length = w.length) :
    (blindWith w γ r).length = w.length := by
  rw [blindWith_eq w γ r h]
  simp [h]

omit [DecidableEq F] in
lemma zipWith_affine_replicate (γ : F) (l : List F) :
    List.zipWith (fun x y => x + γ * y) l (List.replicate l.length 0) = l := by
  induction l with
  | nil => rfl
  | cons x xs ih =>
    simp only [List.length_cons, List.replicate_succ, List.zipWith_cons_cons,
      mul_zero, add_zero, ih]

lemma append_blind (input w r : List F) (γ : F) (h : r.length = w.length) :
    input ++ blindWith w γ r
      = List.zipWith (fun x y => x + γ * y) (input ++ w)
          (List.replicate input.length 0 ++ r) := by
  rw [blindWith_eq w γ r h, List.zipWith_append _ _ _ _ _ (by simp),
    zipWith_affine_replicate]

omit [DecidableEq F] in
lemma getD_zipWith (f : F → F → F) (u v : List F) (i : Nat)
    (hv : v.length = u.length) (hi : i < u.length) :
    (List.zipWith f u v).getD i 0 = f (u.getD i 0) (v.getD i 0) := by
  induction u generalizing v i with
  | nil => exact absurd hi (by simp)
  | cons x xs ih =>
    cases v with
    | nil => simp at hv
    | cons y ys =>
      cases i with
      | zero => rfl
      | succ n =>
        simp only [List.zipWith_cons_cons, List.getD_cons_succ]
        exact ih ys n (by simpa using hv) (by simpa using hi)

lemma specInnerProd_affine (row : List (F × Nat)) (γ : F) (u v : List F)
    (hb : rowBounded row u.length = true) (hv : v.length = u.length) :
    specInnerProd row (List.zipWith (fun x y => x + γ * y) u v)
      = specInnerProd row u + γ * specInnerProd row v := by
  induction row with
  | nil => simp [specInnerProd]
  | cons ci rest ih =>
    rw [rowBounded, List.all_cons] at hb
    have hb1 : ci.2 < u.length := of_decide_eq_true ((Bool.and_eq_true _ _).mp hb).1
    have hb2 : rowBounded rest u.length = true := ((Bool.and_eq_true _ _).mp hb).2
    simp only [specInnerProd, List.map_cons, List.sum_cons]
    rw [getD_zipWith _ u v ci.2 hv hb1]
    have ih' := ih hb2
    simp only [specInnerProd] at ih'
    rw [ih']
    ring

lemma specMVM_affine (m : Mat F) (γ : F) (u v : List F)
    (hb : matBounded m u.length = true) (hv : v.length = u.length) :
    specMVM m (List.zipWith (fun x y => x + γ * y) u v)
      = List.zipWith (fun x y => x + γ * y) (specMVM m u) (specMVM m v) := by
  induction m with
  | nil => rfl
  | cons row rest ih =>
    rw [matBounded, List.all_cons] at hb
    have hb1 : rowBounded row u.length = true := ((Bool.and_eq_true _ _).mp hb).1
    have hb2 : matBounded rest u.length = true := ((Bool.and_eq_true _ _).mp hb).2
    simp only [specMVM, List.map_cons, List.zipWith_cons_cons]
    rw [specInnerProd_affine row γ u v hb1 hv]
    have ih' := ih hb2
    simp only [specMVM] at ih'
    rw [ih']

lemma specMVM_blind (m : Mat F) (input w : List F) (γ : F) (r : List F)
    (hb : matBounded m (input.length + w.length) = true) (hr : r.length = w.length) :
    specMVM m (input ++ blindWith w γ r)
      = List.zipWith (fun x y => x + γ * y) (specMVM m (input ++ w))
          (specMVM m (List.replicate input.length 0 ++ r)) := by
  rw [append_blind input w r γ hr]
  exact specMVM_affine m γ (input ++ w) _ (by simpa using hb) (by simp [hr])

lemma matrixVecMul_blind (m : Mat F) (input w : List F) (γ : F) (r : List F)
    (hb : matBounded m (input.length + w.length) = true) (hr : r.length = w.length) :
    matrixVecMul m input (blindWith w γ r)
      = some (List.zipWith (fun x y => x + γ * y) (specMVM m (input ++ w))
          (specMVM m (List.replicate input.length 0 ++ r))) := by
  have hlen : (blindWith w γ r).length = w.length := blindWith_length w γ r hr
  rw [matrixVecMul_eq m input _ (by rw [hlen]; exact hb),
    specMVM_blind m input w γ r hb hr]

omit [DecidableEq F] in
lemma had_expand (γ : F) (za ra zb rb : List F)
    (hra : ra.length = za.length) (hzb : zb.length = za.length)
    (hrb : rb.length = za.length) :
    List.zipWith (· * ·) (List.zipWith (fun x y => x + γ * y) za ra)
        (List.zipWith (fun x y => x + γ * y) zb rb)
      = List.zipWith (· + ·)
          (List.zipWith (· + ·) (List.zipWith (· * ·) za zb)
            ((List.zipWith (· + ·) (List.zipWith (· * ·) za rb)
              (List.zipWith (· * ·) zb ra)).map (fun x => γ * x)))
          ((List.zipWith (fun x y => y * x) ra rb).map (fun x => γ ^ 2 * x)) := by
  induction za generalizing ra zb rb with
  | nil =>
    cases ra with
    | cons a as => simp at hra
    | nil =>
      cases zb with
      | cons b bs => simp at hzb
      | nil =>
        cases rb with
        | cons c cs => simp at hrb
        | nil => rfl
  | cons x xs ih =>
    cases ra with
    | nil => simp at hra
    | cons p ps =>
      cases zb with
      | nil => simp at hzb
      | cons y ys =>
        cases rb with
        | nil => simp at hrb
        | cons q qs =>
          simp only [List.zipWith_cons_cons, List.map_cons]
          congr 1
          · ring
          · exact ih ps ys qs (by simpa using hra) (by simpa using hzb)
              (by simpa using hrb)

end BlindLemmas

section HonestLemmas

variable {F : Type} [CommRing F] [DecidableEq F]
variable {G : Type} [AddCommGroup G] [Module F G] [DecidableEq G]

lemma proveZK_eq (S : SpongeOps F G) (ipk : IndexProverKey F G) (input witness : List F)
    (ρ : Nat → F) (sponge : Option S.State)
    (hba : matBounded ipk.a (input.length + witness.length) = true)
    (hbb : matBounded ipk.b (input.length + witness.length) = true)
    (hbc : matBounded ipk.c (input.length + witness.length) = true) :
    proveZK S ipk input witness ρ sponge
      = some (honestProofZK S ipk input witness ρ sponge) := by
  have hzlen : (List.replicate input.length (0 : F)).length
      + (randomizerOf ρ witness.length).length = input.length + witness.length := by
    simp [randomizerOf]
  have e1 := matrixVecMul_eq ipk.a input witness hba
  have e2 := matrixVecMul_eq ipk.b input witness hbb
  have e3 := matrixVecMul_eq ipk.c input witness hbc
  have e4 := matrixVecMul_eq ipk.a (List.replicate input.length 0)
    (randomizerOf ρ witness.length) (by rw [hzlen]; exact hba)
  have e5 := matrixVecMul_eq ipk.b (List.replicate input.length 0)
    (randomizerOf ρ witness.length) (by rw [hzlen]; exact hbb)
  have e6 := matrixVecMul_eq ipk.c (List.replicate input.length 0)
    (randomizerOf ρ witness.length) (by rw [hzlen]; exact hbc)
  simp only [proveZK, e1, e2, e3, e4, e5, e6]
  rfl

lemma proveNZK_eq (S : SpongeOps F G) (ipk : IndexProverKey F G) (input witness : List F)
    (sponge : Option S.State)
    (hba : matBounded ipk.a (input.length + witness.length) = true)
    (hbb : matBounded ipk.b (input.length + witness.length) = true)
    (hbc : matBounded ipk.c (input.length + witness.length) = true) :
    proveNZK S ipk input witness sponge
      = some (honestProofNZK ipk input witness) := by
  have e1 := matrixVecMul_eq ipk.a input witness hba
  have e2 := matrixVecMul_eq ipk.b input witness hbb
  have e3 := matrixVecMul_eq ipk.c input witness hbc
  simp only [proveNZK, e1, e2, e3]
  rfl

lemma hadamard_honest_zk_with (ipk : IndexProverKey F G) (input witness : List F)
    (ρ : Nat → F) (γ : F)
    (hba : matBounded ipk.a (input.length + witness.length) = true)
    (hbb : matBounded ipk.b (input.length + witness.length) = true)
    (hlb : ipk.b.length = ipk.a.length) (hlc : ipk.c.length = ipk.a.length)
    (hsat : List.zipWith (· * ·) (specMVM ipk.a (input ++ witness))
        (specMVM ipk.b (input ++ witness)) = specMVM ipk.c (input ++ witness)) :
    hadamardCheck ipk input (honestProofZKWith ipk input witness ρ γ) γ = some true := by
  have hrlen : (randomizerOf ρ witness.length).length = witness.length :=
    randomizerOf_length ρ witness.length
  have ea := matrixVecMul_blind ipk.a input witness γ (randomizerOf ρ witness.length)
    hba hrlen
  have eb := matrixVecMul_blind ipk.b input witness γ (randomizerOf ρ witness.length)
    hbb hrlen
  simp only [hadamardCheck, honestProofZKWith, honestFirstMsgZK, ea, eb,
    Option.map_some', zA, zB, zC, rAz, rBz, rCz, crossZK, rabZK]
  refine congrArg some ?_
  rw [decide_eq_true_eq]
  rw [had_expand γ (specMVM ipk.a (input ++ witness))
      (specMVM ipk.a (List.replicate input.length 0 ++ randomizerOf ρ witness.length))
      (specMVM ipk.b (input ++ witness))
      (specMVM ipk.b (List.replicate input.length 0 ++ randomizerOf ρ witness.length))
      (by simp [specMVM_length]) (by simp [specMVM_length, hlb])
      (by simp [specMVM_length, hlb]),
    hsat]
  exact (commit_three ipk.ck γ (specMVM ipk.c (input ++ witness)) _ _
    (cBlinderOf ρ witness.length) (blinder1Of ρ witness.length)
    (blinder2Of ρ witness.length)
    (by simp [specMVM_length, hlb, hlc])
    (by simp [specMVM_length, hlb, hlc])).symm

lemma verify_honest_zk (S : SpongeOps F G) (ipk : IndexProverKey F G)
    (input witness : List F) (ρ : Nat → F) (sponge : Option S.State)
    (hba : matBounded ipk.a (input.length + witness.length) = true)
    (hbb : matBounded ipk.b (input.length + witness.length) = true)
    (hbc : matBounded ipk.c (input.length + witness.length) = true)
    (hlb : ipk.b.length = ipk.a.length) (hlc : ipk.c.length = ipk.a.length)
    (hsat : List.zipWith (· * ·) (specMVM ipk.a (input ++ witness))
        (specMVM ipk.b (input ++ witness)) = specMVM ipk.c (input ++ witness)) :
    verify S ipk input (honestProofZK S ipk input witness ρ sponge) sponge = some true := by
  have hrlen : (randomizerOf ρ witness.length).length = witness.length :=
    randomizerOf_length ρ witness.length
  unfold verify
  rw [if_neg (by simp [honestProofZK, honestProofZKWith, honestFirstMsgZK])]
  unfold honestProofZK
  have hγ : computeChallenge S ipk.index_info.matrices_hash input
      (honestFirstMsgZK ipk input witness ρ) (sponge.getD S.initState)
      = honestGammaZK S ipk input witness ρ sponge := rfl
  have hH := hadamard_honest_zk_with ipk input witness ρ
    (honestGammaZK S ipk input witness ρ sponge) hba hbb hlb hlc hsat
  have ea := matrixVecMul_blind ipk.a input witness
    (honestGammaZK S ipk input witness ρ sponge) (randomizerOf ρ witness.length) hba hrlen
  have eb := matrixVecMul_blind ipk.b input witness
    (honestGammaZK S ipk input witness ρ sponge) (randomizerOf ρ witness.length) hbb hrlen
  have ec := matrixVecMul_blind ipk.c input witness
    (honestGammaZK S ipk input witness ρ sponge) (randomizerOf ρ witness.length) hbc hrlen
  simp only [honestProofZKWith, honestFirstMsgZK,
    zA, zB, zC, rAz, rBz, rCz, crossZK, rabZK] at hH
  simp only [honestFirstMsgZK, zA, zB, zC, rAz, rBz, rCz, crossZK, rabZK] at hγ
  simp only [verifyChecks, honestProofZKWith, honestFirstMsgZK, hγ, ea, eb, ec,
    Option.map_some', hH, zA, zB, zC, rAz, rBz, rCz, crossZK, rabZK]
  refine congrArg some ?_
  simp only [Bool.and_true, Bool.and_eq_true, decide_eq_true_eq]
  refine ⟨⟨?_, ?_⟩, ?_⟩
  · exact (commit_affine ipk.ck (honestGammaZK S ipk input witness ρ sponge)
      (specMVM ipk.a (input ++ witness))
      (specMVM ipk.a (List.replicate input.length 0 ++ randomizerOf ρ witness.length))
      (aBlinderOf ρ witness.length) (rABlinderOf ρ witness.length)
      (by simp [specMVM_length])).symm
  · exact (commit_affine ipk.ck (honestGammaZK S ipk input witness ρ sponge)
      (specMVM ipk.b (input ++ witness))
      (specMVM ipk.b (List.replicate input.length 0 ++ randomizerOf ρ witness.length))
      (bBlinderOf ρ witness.length) (rBBlinderOf ρ witness.length)
      (by simp [specMVM_length])).symm
  · exact (commit_affine ipk.ck (honestGammaZK S ipk input witness ρ sponge)
      (specMVM ipk.c (input ++ witness))
      (specMVM ipk.c (List.replicate input.length 0 ++ randomizerOf ρ witness.length))
      (cBlinderOf ρ witness.length) (rCBlinderOf ρ witness.length)
      (by simp [specMVM_length])).symm

lemma hadamard_honest_nzk (ipk : IndexProverKey F G) (input witness : List F) (γ : F)
    (hba : matBounded ipk.a (input.length + witness.length) = true)
    (hbb : matBounded ipk.b (input.length + witness.length) = true)
    (hsat : List.zipWith (· * ·) (specMVM ipk.a (input ++ witness))
        (specMVM ipk.b (input ++ witness)) = specMVM ipk.c (input ++ witness)) :
    hadamardCheck ipk input (honestProofNZK ipk input witness) γ = some true := by
  have ea := matrixVecMul_eq ipk.a input witness hba
  have eb := matrixVecMul_eq ipk.b input witness hbb
  simp only [hadamardCheck, honestProofNZK, honestFirstMsgNZK, ea, eb,
    Option.map_none', zA, zB, zC]
  refine congrArg some ?_
  rw [decide_eq_true_eq, hsat]

lemma verify_honest_nzk (S : SpongeOps F G) (ipk : IndexProverKey F G)
    (input witness : List F) (sponge : Option S.State)
    (hba : matBounded ipk.a (input.length + witness.length) = true)
    (hbb : matBounded ipk.b (input.length + witness.length) = true)
    (hbc : matBounded ipk.c (input.length + witness.length) = true)
    (hsat : List.zipWith (· * ·) (specMVM ipk.a (input ++ witness))
        (specMVM ipk.b (input ++ witness)) = specMVM ipk.c (input ++ witness)) :
    verify S ipk input (honestProofNZK ipk input witness) sponge = some true := by
  unfold verify
  rw [if_neg (by simp [honestProofNZK, honestFirstMsgNZK])]
  have ea := matrixVecMul_eq ipk.a input witness hba
  have eb := matrixVecMul_eq ipk.b input witness hbb
  have ec := matrixVecMul_eq ipk.c input witness hbc
  have hH := hadamard_honest_nzk ipk input witness
    (computeChallenge S ipk.index_info.matrices_hash input
      (honestFirstMsgNZK ipk input witness) (sponge.getD S.initState)) hba hbb hsat
  simp only [honestProofNZK, honestFirstMsgNZK, zA, zB, zC] at hH
  simp only [verifyChecks, honestProofNZK, honestFirstMsgNZK, ea, eb, ec,
    Option.map_none', zA, zB, zC, hH]
  simp

lemma proveChecked_ok (S : SpongeOps F G) (ipk : IndexProverKey F G)
    (asg : ProveAssignment F) (makeZk : Bool) (sponge : Option S.State)
    (rng : Option (Nat → F))
    (h1 : ipk.index_info.num_variables = asg.input.length + asg.witness.length)
    (h2 : ipk.index_info.num_constraints = asg.numConstraints) :
    proveChecked S ipk asg makeZk sponge rng
      = match makeZk, rng with
        | false, _ => (proveNZK S ipk asg.input asg.witness sponge).map Except.ok
        | true, none => none
        | true, some ρ => (proveZK S ipk asg.input asg.witness ρ sponge).map Except.ok := by
  unfold proveChecked
  rw [if_neg (not_not_intro h1), if_neg (not_not_intro h2)]

lemma proveNZK_shape (S : SpongeOps F G) (ipk : IndexProverKey F G)
    (input witness : List F) (sponge : Option S.State) (pf : Proof F G)
    (h : proveNZK S ipk input witness sponge = some pf) :
    pf.second_msg.blinded_witness = witness ∧ pf.first_msg.randomness = none
      ∧ pf.second_msg.randomness = none := by
  unfold proveNZK at h
  cases hma : matrixVecMul ipk.a input witness with
  | none => rw [hma] at h; simp at h
  | some z_a =>
    cases hmb : matrixVecMul ipk.b input witness with
    | none => rw [hma, hmb] at h; simp at h
    | some z_b =>
      cases hmc : matrixVecMul ipk.c input witness with
      | none => rw [hma, hmb, hmc] at h; simp at h
      | some z_c =>
        rw [hma, hmb, hmc] at h
        have h3 := Option.some.inj h
        subst h3
        exact ⟨rfl, rfl, rfl⟩

end HonestLemmas

section Claims

variable {F : Type} [CommRing F] [DecidableEq F]
variable {G : Type} [AddCommGroup G] [Module F G] [DecidableEq G]

/-- Claim C8: for every sparse matrix whose rows reference only column indices below
the combined length of input and witness, `matrix_vec_mul` returns (without
panicking) the vector whose i-th coordinate is the inner product of row i against
the concatenated (input, witness) vector; the `is_one` fast path of `inner_prod`
does not change the result. -/
theorem c8_matrix_vec_mul_correct (m : Mat F) (input witness : List F)
    (hb : matBounded m (input.length + witness.length) = true) :
    matrixVecMul m input witness
      = some (m.map (fun row => specInnerProd row (input ++ witness))) :=
  matrixVecMul_eq m input witness hb

theorem c8_matrix_vec_mul_correct_witness :
    matBounded [[((2 : ZMod 11), 0)], [(1, 1)]] ([3].length + [5].length) = true
      ∧ matrixVecMul [[((2 : ZMod 11), 0)], [(1, 1)]] [3] [5]
          = some ([[((2 : ZMod 11), 0)], [(1, 1)]].map
              (fun row => specInnerProd row ([3] ++ [5]))) :=
  ⟨by decide, c8_matrix_vec_mul_correct _ _ _ (by decide)⟩

/-- Claim C2: a proof whose first-round and second-round randomness-block presences
disagree is rejected by `verify` unconditionally — the result is `false` regardless
of every other field of the proof, the verifier key and the public input. -/
theorem c2_flag_mismatch_rejected (S : SpongeOps F G) (ivk : IndexVerifierKey F G)
    (input : List F) (proof : Proof F G) (sponge : Option S.State)
    (h : proof.first_msg.randomness.isSome ≠ proof.second_msg.randomness.isSome) :
    verify S ivk input proof sponge = some false := by
  unfold verify
  rw [if_pos h]

theorem c2_flag_mismatch_rejected_witness :
    mismatchProof.first_msg.randomness.isSome ≠ mismatchProof.second_msg.randomness.isSome
      ∧ verify testSponge testVK [1] mismatchProof none = some false :=
  ⟨by decide, c2_flag_mismatch_rejected testSponge testVK [1] mismatchProof none (by decide)⟩

/-- Claim C3 (the code violates it): `verify` is not total.  At this concrete,
honestly indexed verifier key, with the honest public input `[1]` and an adversarial
proof whose blinded witness is empty, the matrix column index `1` falls outside the
concatenated input-and-witness vector and the Rust code panics with an
out-of-bounds slice index inside `inner_prod` (modelled by `none`) instead of
returning `false`. -/
theorem c3_verify_panics_on_short_witness :
    verify testSponge testVK [1] shortProof none = none := by decide

/-- Claim C4 (the code violates it): at this concrete prover key (2 variables) and
assignment (1 variable), `prove` does not return a `DimensionMismatchError` — the
error type `SynthesisError` has no such variant — but panics via `assert_eq!`
(modelled by `none`). -/
theorem c4_counterexample_prove_panics :
    prove testSponge testVK (Except.ok ⟨[1], [], 1⟩) false none none = none := rfl

/-- Claim C4 amended: when the variable count or the constraint count of the
synthesized assignment disagrees with the prover key's index info, `prove` fails by
panicking on the `assert_eq!` checks of mod.rs lines 151-152 (modelled by `none`)
rather than by returning an error to the caller. -/
theorem c4_dimension_mismatch_panics (S : SpongeOps F G) (ipk : IndexProverKey F G)
    (asg : ProveAssignment F) (makeZk : Bool) (sponge : Option S.State)
    (rng : Option (Nat → F))
    (h : ipk.index_info.num_variables ≠ asg.input.length + asg.witness.length
      ∨ ipk.index_info.num_constraints ≠ asg.numConstraints) :
    prove S ipk (Except.ok asg) makeZk sponge rng = none := by
  show proveChecked S ipk asg makeZk sponge rng = none
  unfold proveChecked
  rcases h with h1 | h2
  · rw [if_pos h1]
  · by_cases h1 : ipk.index_info.num_variables = asg.input.length + asg.witness.length
    · rw [if_neg (not_not_intro h1), if_pos h2]
    · rw [if_pos h1]

theorem c4_dimension_mismatch_panics_witness :
    (testVK.index_info.num_variables ≠ ([(1 : ZMod 11)].length + ([] : List (ZMod 11)).length)
      ∨ testVK.index_info.num_constraints ≠ (1 : Nat))
      ∧ prove testSponge testVK (Except.ok ⟨[1], [], 1⟩) true none none = none :=
  ⟨Or.inl (by decide),
    c4_dimension_mismatch_panics testSponge testVK ⟨[1], [], 1⟩ true none none
      (Or.inl (by decide))⟩

/-- Claim C6: the Fiat-Shamir challenge deriver is a pure, deterministic function of
its four arguments (matrices hash, public input, first-round message, sponge state):
two calls with identical inputs yield identical outputs, with no hidden state. -/
theorem c6_challenge_deterministic (S : SpongeOps F G)
    (h1 h2 : List Nat) (i1 i2 : List F) (m1 m2 : FirstRoundMessage G)
    (st1 st2 : S.State) (hh : h1 = h2) (hi : i1 = i2) (hm : m1 = m2) (hs : st1 = st2) :
    computeChallenge S h1 i1 m1 st1 = computeChallenge S h2 i2 m2 st2 := by
  subst hh; subst hi; subst hm; subst hs; rfl

theorem c6_challenge_deterministic_witness :
    ([7] : List Nat) = [7] ∧ ([1] : List (ZMod 11)) = [1] ∧ emptyFirstMsg = emptyFirstMsg
      ∧ ([] : List Nat) = []
      ∧ computeChallenge testSponge [7] [1] emptyFirstMsg []
          = computeChallenge testSponge [7] [1] emptyFirstMsg [] :=
  ⟨rfl, rfl, rfl, rfl,
    c6_challenge_deterministic testSponge [7] [7] [1] [1] emptyFirstMsg emptyFirstMsg
      [] [] rfl rfl rfl rfl⟩

/-- Claim C9 (spec-modelled, the source's accumulation `prove` body being an empty
stub): calling the accumulation scheme's `prove` with more input instances than the
configured depth bound fails with `BoundExceededError`, with zero commitment
computations performed, whatever the folding computation would have done. -/
theorem c9_bound_exceeded {α : Type} (bound : Nat) (inputs : List α)
    (fold : List α → Except ASError Unit × Nat) (h : bound < inputs.length) :
    bdasProve bound inputs fold = (Except.error ASError.boundExceeded, 0) := by
  unfold bdasProve
  rw [if_pos h]

theorem c9_bound_exceeded_witness :
    (1 : Nat) < [(), (), ()].length
      ∧ bdasProve 1 [(), (), ()] (fun l => (Except.ok (), l.length))
          = (Except.error ASError.boundExceeded, 0) :=
  ⟨by decide, c9_bound_exceeded 1 [(), (), ()] (fun l => (Except.ok (), l.length)) (by decide)⟩

/-- Claim C10: when the zero-knowledge flag is set but no randomness source is
supplied, `prove` panics on `rng.as_mut().unwrap()` (mod.rs line 157, modelled by
`none`) instead of returning an error — even when synthesis succeeded and the
dimension assertions pass. -/
theorem c10_zk_without_rng_panics (S : SpongeOps F G) (ipk : IndexProverKey F G)
    (asg : ProveAssignment F) (sponge : Option S.State)
    (hv : ipk.index_info.num_variables = asg.input.length + asg.witness.length)
    (hc : ipk.index_info.num_constraints = asg.numConstraints) :
    prove S ipk (Except.ok asg) true sponge none = none := by
  show proveChecked S ipk asg true sponge none = none
  unfold proveChecked
  rw [if_neg (not_not_intro hv), if_neg (not_not_intro hc)]

theorem c10_zk_without_rng_panics_witness :
    testVK.index_info.num_variables
        = (testInst.assignment.input.length + testInst.assignment.witness.length)
      ∧ testVK.index_info.num_constraints = testInst.assignment.numConstraints
      ∧ prove testSponge testVK (Except.ok testInst.assignment) true none none = none :=
  ⟨by decide, by decide,
    c10_zk_without_rng_panics testSponge testVK testInst.assignment none
      (by decide) (by decide)⟩

/-- Claim C1: for every R1CS constraint synthesizer (modelled as a well-formed
instance with matrices, input and witness) whose assignment satisfies the
constraint system, indexing the relation and then proving with the resulting
prover key yields a proof that `verify` accepts against the matching verifier key
and public input, whether or not the zero-knowledge flag is set. -/
theorem c1_completeness (S : SpongeOps F G)
    (hashABC : Mat F → Mat F → Mat F → List Nat)
    (pedersenSetup : Nat → CommitterKey G) (inst : R1CSInstance F)
    (makeZk : Bool) (sponge : Option S.State) (ρ : Nat → F)
    (hba : matBounded inst.a (inst.input.length + inst.witness.length) = true)
    (hbb : matBounded inst.b (inst.input.length + inst.witness.length) = true)
    (hbc : matBounded inst.c (inst.input.length + inst.witness.length) = true)
    (hlb : inst.b.length = inst.a.length) (hlc : inst.c.length = inst.a.length)
    (hsat : List.zipWith (· * ·) (specMVM inst.a (inst.input ++ inst.witness))
        (specMVM inst.b (inst.input ++ inst.witness))
      = specMVM inst.c (inst.input ++ inst.witness)) :
    ∃ pf : Proof F G,
      prove S (index hashABC pedersenSetup inst).1 (Except.ok inst.assignment)
          makeZk sponge (some ρ) = some (Except.ok pf)
        ∧ verify S (index hashABC pedersenSetup inst).2 inst.input pf sponge
            = some true := by
  cases makeZk with
  | false =>
    refine ⟨honestProofNZK (index hashABC pedersenSetup inst).1 inst.input inst.witness,
      ?_, ?_⟩
    · show proveChecked S (index hashABC pedersenSetup inst).1 inst.assignment
        false sponge (some ρ) = _
      rw [proveChecked_ok S _ _ _ _ _ rfl rfl]
      show (proveNZK S (index hashABC pedersenSetup inst).1 inst.assignment.input
        inst.assignment.witness sponge).map Except.ok = _
      simp only [R1CSInstance.assignment]
      rw [proveNZK_eq S (index hashABC pedersenSetup inst).1 inst.input inst.witness
        sponge hba hbb hbc]
      rfl
    · exact verify_honest_nzk S (index hashABC pedersenSetup inst).1 inst.input
        inst.witness sponge hba hbb hbc hsat
  | true =>
    refine ⟨honestProofZK S (index hashABC pedersenSetup inst).1 inst.input
      inst.witness ρ sponge, ?_, ?_⟩
    · show proveChecked S (index hashABC pedersenSetup inst).1 inst.assignment
        true sponge (some ρ) = _
      rw [proveChecked_ok S _ _ _ _ _ rfl rfl]
      show (proveZK S (index hashABC pedersenSetup inst).1 inst.assignment.input
        inst.assignment.witness ρ sponge).map Except.ok = _
      simp only [R1CSInstance.assignment]
      rw [proveZK_eq S (index hashABC pedersenSetup inst).1 inst.input inst.witness
        ρ sponge hba hbb hbc]
      rfl
    · exact verify_honest_zk S (index hashABC pedersenSetup inst).1 inst.input
        inst.witness ρ sponge hba hbb hbc hlb hlc hsat

theorem c1_completeness_witness :
    (matBounded testInst.a (testInst.input.length + testInst.witness.length) = true
      ∧ matBounded testInst.b (testInst.input.length + testInst.witness.length) = true
      ∧ matBounded testInst.c (testInst.input.length + testInst.witness.length) = true
      ∧ testInst.b.length = testInst.a.length
      ∧ testInst.c.length = testInst.a.length
      ∧ List.zipWith (· * ·) (specMVM testInst.a (testInst.input ++ testInst.witness))
          (specMVM testInst.b (testInst.input ++ testInst.witness))
        = specMVM testInst.c (testInst.input ++ testInst.witness))
      ∧ (∃ pf : Proof (ZMod 11) (ZMod 11),
          prove testSponge (index testHash testSetup testInst).1
              (Except.ok testInst.assignment) true none (some (fun n => (n : ZMod 11)))
            = some (Except.ok pf)
          ∧ verify testSponge (index testHash testSetup testInst).2 testInst.input pf none
              = some true) :=
  ⟨⟨by decide, by decide, by decide, by decide, by decide, by decide⟩,
    c1_completeness testSponge testHash testSetup testInst true none
      (fun n => (n : ZMod 11)) (by decide) (by decide) (by decide) (by decide)
      (by decide) (by decide)⟩

/-- Claim C5: the verifier's fourth equality check (`hadamardCheck`, the definition
`verify` runs as its last component) commits the Hadamard product of the A-product
and B-product vectors with the opening scalar `sigma_o` and compares it to
`comm_c + γ·comm_1 + γ²·comm_2` (the `γ` terms dropped when no randomness block is
present); the honest zero-knowledge prover sets
`sigma_o = c_blinder + γ·blinder_1 + γ²·blinder_2`, and for its proof the check
succeeds at the challenge `γ` the verifier derives. -/
theorem c5_sigma_o_hadamard (S : SpongeOps F G)
    (hashABC : Mat F → Mat F → Mat F → List Nat)
    (pedersenSetup : Nat → CommitterKey G) (inst : R1CSInstance F)
    (sponge : Option S.State) (ρ : Nat → F)
    (hba : matBounded inst.a (inst.input.length + inst.witness.length) = true)
    (hbb : matBounded inst.b (inst.input.length + inst.witness.length) = true)
    (hbc : matBounded inst.c (inst.input.length + inst.witness.length) = true)
    (hlb : inst.b.length = inst.a.length) (hlc : inst.c.length = inst.a.length)
    (hsat : List.zipWith (· * ·) (specMVM inst.a (inst.input ++ inst.witness))
        (specMVM inst.b (inst.input ++ inst.witness))
      = specMVM inst.c (inst.input ++ inst.witness)) :
    ∃ pf : Proof F G,
      prove S (index hashABC pedersenSetup inst).1 (Except.ok inst.assignment)
          true sponge (some ρ) = some (Except.ok pf)
        ∧ pf.second_msg.randomness.map (fun r => r.sigma_o)
            = some (cBlinderOf ρ inst.witness.length
                + honestGammaZK S (index hashABC pedersenSetup inst).1 inst.input
                    inst.witness ρ sponge * blinder1Of ρ inst.witness.length
                + honestGammaZK S (index hashABC pedersenSetup inst).1 inst.input
                    inst.witness ρ sponge ^ 2 * blinder2Of ρ inst.witness.length)
        ∧ hadamardCheck (index hashABC pedersenSetup inst).2 inst.input pf
            (honestGammaZK S (index hashABC pedersenSetup inst).1 inst.input
              inst.witness ρ sponge)
            = some true := by
  refine ⟨honestProofZK S (index hashABC pedersenSetup inst).1 inst.input
    inst.witness ρ sponge, ?_, ?_, ?_⟩
  · show proveChecked S (index hashABC pedersenSetup inst).1 inst.assignment
      true sponge (some ρ) = _
    rw [proveChecked_ok S _ _ _ _ _ rfl rfl]
    show (proveZK S (index hashABC pedersenSetup inst).1 inst.assignment.input
      inst.assignment.witness ρ sponge).map Except.ok = _
    simp only [R1CSInstance.assignment]
    rw [proveZK_eq S (index hashABC pedersenSetup inst).1 inst.input inst.witness
      ρ sponge hba hbb hbc]
    rfl
  · rfl
  · exact hadamard_honest_zk_with (index hashABC pedersenSetup inst).1 inst.input
      inst.witness ρ (honestGammaZK S (index hashABC pedersenSetup inst).1 inst.input
        inst.witness ρ sponge) hba hbb hlb hlc hsat

theorem c5_sigma_o_hadamard_witness :
    (matBounded testInst.a (testInst.input.length + testInst.witness.length) = true
      ∧ List.zipWith (· * ·) (specMVM testInst.a (testInst.input ++ testInst.witness))
          (specMVM testInst.b (testInst.input ++ testInst.witness))
        = specMVM testInst.c (testInst.input ++ testInst.witness))
      ∧ (∃ pf : Proof (ZMod 11) (ZMod 11),
          prove testSponge (index testHash testSetup testInst).1
              (Except.ok testInst.assignment) true none (some (fun n => (n : ZMod 11)))
            = some (Except.ok pf)
          ∧ pf.second_msg.randomness.map (fun r => r.sigma_o)
              = some (cBlinderOf (fun n => (n : ZMod 11)) testInst.witness.length
                  + honestGammaZK testSponge (index testHash testSetup testInst).1
                      testInst.input testInst.witness (fun n => (n : ZMod 11)) none
                    * blinder1Of (fun n => (n : ZMod 11)) testInst.witness.length
                  + honestGammaZK testSponge (index testHash testSetup testInst).1
                      testInst.input testInst.witness (fun n => (n : ZMod 11)) none ^ 2
                    * blinder2Of (fun n => (n : ZMod 11)) testInst.witness.length)
          ∧ hadamardCheck (index testHash testSetup testInst).2 testInst.input pf
              (honestGammaZK testSponge (index testHash testSetup testInst).1
                testInst.input testInst.witness (fun n => (n : ZMod 11)) none)
              = some true) :=
  ⟨⟨by decide, by decide⟩,
    c5_sigma_o_hadamard testSponge testHash testSetup testInst none
      (fun n => (n : ZMod 11)) (by decide) (by decide) (by decide) (by decide)
      (by decide) (by decide)⟩

/-- Claim C7: for every prover key and successfully synthesized assignment, when
the zero-knowledge flag is false any proof returned by `prove` carries a
second-round blinded witness exactly equal to the synthesized witness vector, and
both randomness blocks are absent. -/
theorem c7_non_zk_proof_shape (S : SpongeOps F G) (ipk : IndexProverKey F G)
    (asg : ProveAssignment F) (sponge : Option S.State) (rng : Option (Nat → F))
    (pf : Proof F G)
    (h : prove S ipk (Except.ok asg) false sponge rng = some (Except.ok pf)) :
    pf.second_msg.blinded_witness = asg.witness
      ∧ pf.first_msg.randomness = none ∧ pf.second_msg.randomness = none := by
  have h' : proveChecked S ipk asg false sponge rng = some (Except.ok pf) := h
  unfold proveChecked at h'
  by_cases h1 : ipk.index_info.num_variables ≠ asg.input.length + asg.witness.length
  · rw [if_pos h1] at h'; simp at h'
  · rw [if_neg h1] at h'
    by_cases h2 : ipk.index_info.num_constraints ≠ asg.numConstraints
    · rw [if_pos h2] at h'; simp at h'
    · rw [if_neg h2] at h'
      have h'' : (proveNZK S ipk asg.input asg.witness sponge).map Except.ok
          = some (Except.ok pf) := h'
      obtain ⟨pf0, hpf0, hok⟩ := Option.map_eq_some'.mp h''
      have hpp : pf0 = pf := by injection hok
      subst hpp
      exact proveNZK_shape S ipk asg.input asg.witness sponge pf0 hpf0

theorem c7_non_zk_proof_shape_witness :
    prove testSponge testVK (Except.ok testInst.assignment) false none none
        = some (Except.ok (honestProofNZK testVK testInst.input testInst.witness))
      ∧ ((honestProofNZK testVK testInst.input testInst.witness).second_msg.blinded_witness
            = testInst.assignment.witness
        ∧ (honestProofNZK testVK testInst.input testInst.witness).first_msg.randomness = none
        ∧ (honestProofNZK testVK testInst.input testInst.witness).second_msg.randomness = none) :=
  ⟨rfl,
    c7_non_zk_proof_shape testSponge testVK testInst.assignment none none
      (honestProofNZK testVK testInst.input testInst.witness) rfl⟩

end Claims

end Nark
